import Mathlib

/-!
Shallow embedding of the audioheaven server core (upload reassembly,
job orchestration, event fan-out, cleanup sweeper) for checking the
natural-language specification against the code.

Sources embedded:
  src/src/server/services/upload.ts   (chunked upload session manager)
  src/src/server/services/jobs.ts     (job scheduler, progress parser, event broker)
  src/src/server/services/audio.ts    (stored-file registries, two-tier lookup)
  src/src/server/services/cleanup.ts  (periodic cleanup sweeper)
  src/src/server/routes/audio.ts      (HTTP route handlers)

Modelling conventions: machine integers become Nat/Int; JS `Map` and the
in-memory registries become association lists with unique keys; the
filesystem directory owned by one upload session becomes an association
list from file names (lists of character codes) to byte lists; fallible
operations return `Except`; `Date.now()` and generated identifiers become
explicit parameters.  Times in fractional seconds are scaled to integer
centiseconds, which is exact for the arithmetic the code performs.
-/

/-- File names are modelled as lists of character codes, byte contents as
lists of bytes. -/
abbrev FName := List Nat

abbrev Bytes := List Nat

section AList

variable {κ β : Type} [DecidableEq κ]

/-- Association-list lookup; models `Map.get` on the in-memory registries. -/
def lookupA : List (κ × β) → κ → Option β
  | [], _ => none
  | (k, v) :: rest, key => if k = key then some v else lookupA rest key

/-- Association-list insert-or-overwrite; models `Map.set` and also a
filesystem `writeFile` (last write to a name wins). -/
def insertA : List (κ × β) → κ → β → List (κ × β)
  | [], key, v => [(key, v)]
  | (k, w) :: rest, key, v =>
    if k = key then (key, v) :: rest else (k, w) :: insertA rest key v

/-- Association-list removal of a key; models `Map.delete`. -/
def eraseA : List (κ × β) → κ → List (κ × β)
  | [], _ => []
  | (k, w) :: rest, key => if k = key then rest else (k, w) :: eraseA rest key

end AList

/-- Character code of a decimal digit, as in JS `Number.prototype.toString`. -/
def digitCode (d : Nat) : Nat := 48 + d

/-- Fuel-driven helper for `natDigits`; structural recursion on the fuel
keeps the definition kernel-reducible.  The fuel is irrelevant as long as
it is at least `n` (`natDigitsAux_congr`). -/
def natDigitsAux : Nat → Nat → List Nat
  | _, 0 => []
  | 0, _ + 1 => []
  | fuel + 1, n + 1 => natDigitsAux fuel ((n + 1) / 10) ++ [digitCode ((n + 1) % 10)]

/-- Decimal digit character codes of a natural number, most significant
first; empty for 0.  Models the digit production of JS `toString()`. -/
def natDigits (n : Nat) : List Nat := natDigitsAux n n

/-- JS `n.toString()` for a natural number: "0" for zero, otherwise the
digit string. -/
def natRepr (n : Nat) : List Nat := if n = 0 then [digitCode 0] else natDigits n

/-- JS `i.toString()` for an integer; 45 is the code of the minus sign. -/
def intRepr : Int → List Nat
  | Int.ofNat n => natRepr n
  | Int.negSucc m => 45 :: natRepr (m + 1)

/-- JS `s.padStart(6, "0")`. -/
def padStart6 (s : List Nat) : List Nat :=
  List.replicate (6 - s.length) (digitCode 0) ++ s

/-- Temp-file name for a chunk: `chunk-` followed by the index padded to
width 6 with zeros (upload.ts line 73). -/
def chunkName (i : Int) : FName :=
  [99, 104, 117, 110, 107, 45] ++ padStart6 (intRepr i)

/-- Contents of one session's private temp directory: file name to bytes. -/
abbrev Dir := List (FName × Bytes)

/-- The error taxonomy of the services; each constructor corresponds to one
`throw new Error(...)` site in the source. -/
inductive ServiceError
  /-- upload.ts: "File too large. Maximum size is ...MB" -/
  | payloadTooLarge
  /-- upload.ts: "Upload session not found or expired" -/
  | sessionNotFound
  /-- upload.ts: "Missing chunks: received .../..." -/
  | incompleteUpload
  /-- jobs.ts: "Upload not found" -/
  | uploadNotFound
  /-- jobs.ts / routes: "Job not found" -/
  | jobNotFound
deriving DecidableEq

/-- The thrown `Error` message of each service error (interpolated counts in
the source message are dropped). -/
def errorMessage : ServiceError → String
  | ServiceError.payloadTooLarge => "File too large"
  | ServiceError.sessionNotFound => "Upload session not found or expired"
  | ServiceError.incompleteUpload => "Missing chunks"
  | ServiceError.uploadNotFound => "Upload not found"
  | ServiceError.jobNotFound => "Job not found"

/-- One in-flight chunked upload (the record held in `activeUploads`),
together with the contents of its private temp directory. -/
structure UploadSession where
  fileName : String
  totalChunks : Nat
  receivedChunks : Finset Int
  tempDir : Dir
  createdAt : Nat
deriving DecidableEq

/-- The `activeUploads` registry, keyed by upload id. -/
abbrev UploadMap := List (String × UploadSession)

def CHUNK_SIZE : Nat := 5 * 1024 * 1024

def MAX_FILE_SIZE : Nat := 104857600

/-- upload.ts `initChunkedUpload`: rejects oversize payloads, otherwise
creates a fresh session with `totalChunks = ceil(fileSize / CHUNK_SIZE)`,
an empty received set and an empty temp directory.  The generated upload id
and `Date.now()` are explicit parameters. -/
def initChunkedUpload (m : UploadMap) (uploadId : String) (fileName : String)
    (fileSize : Nat) (now : Nat) : Except ServiceError (UploadMap × Nat) :=
  if MAX_FILE_SIZE < fileSize then Except.error ServiceError.payloadTooLarge
  else
    let totalChunks := (fileSize + CHUNK_SIZE - 1) / CHUNK_SIZE
    Except.ok (insertA m uploadId
      { fileName := fileName, totalChunks := totalChunks,
        receivedChunks := ∅, tempDir := [], createdAt := now }, totalChunks)

/-- Response body of the chunk endpoint. -/
structure ChunkAck where
  received : Nat
  total : Nat
  complete : Bool
deriving DecidableEq

/-- The mutation `uploadChunk` performs on the session it found: write the
chunk file under its padded name and add the index to the received set
(upload.ts lines 72-79).  No bounds check is performed on the index. -/
def applyChunk (u : UploadSession) (chunkIndex : Int) (chunkData : Bytes) :
    UploadSession :=
  { u with tempDir := insertA u.tempDir (chunkName chunkIndex) chunkData,
           receivedChunks := insert chunkIndex u.receivedChunks }

/-- upload.ts `uploadChunk`: fails with SessionNotFound for an unknown id,
otherwise stores the chunk and acknowledges with the received count. -/
def uploadChunk (m : UploadMap) (uploadId : String) (chunkIndex : Int)
    (chunkData : Bytes) : Except ServiceError (UploadMap × ChunkAck) :=
  match lookupA m uploadId with
  | none => Except.error ServiceError.sessionNotFound
  | some u =>
    let u2 := applyChunk u chunkIndex chunkData
    Except.ok (insertA m uploadId u2,
      { received := u2.receivedChunks.card, total := u2.totalChunks,
        complete := u2.receivedChunks.card == u2.totalChunks })

/-- Lexicographic (character-code) comparison of file names; models the JS
default `Array.prototype.sort` comparison applied to the `readdir` listing. -/
def nameLtb : FName → FName → Bool
  | [], [] => false
  | [], _ :: _ => true
  | _ :: _, [] => false
  | a :: as, b :: bs => if a < b then true else if b < a then false else nameLtb as bs

/-- Insert one directory entry into a name-sorted list. -/
def insertSorted (p : FName × Bytes) : Dir → Dir
  | [] => [p]
  | q :: rest => if nameLtb q.1 p.1 then q :: insertSorted p rest else p :: q :: rest

/-- Sort directory entries by file name; models `chunks.sort()` over the
`readdir` listing (insertion sort — the algorithm is irrelevant, only the
sorted result matters). -/
def sortDir : Dir → Dir
  | [] => []
  | p :: rest => insertSorted p (sortDir rest)

/-- Result of a successful finalize: the stored file id, display name and
the concatenated bytes written to the final path. -/
structure FinalizeOut where
  fileId : String
  fileName : String
  fileBytes : Bytes
deriving DecidableEq

/-- upload.ts `finalizeUpload`: fails with SessionNotFound for an unknown
id; fails with IncompleteUpload when the received-set size differs from
`totalChunks`; otherwise concatenates the chunk files in sorted name order
(readdir + sort + sequential append), removes the session and returns the
stored file.  The generated file id is an explicit parameter. -/
def finalizeUpload (m : UploadMap) (uploadId : String) (fileId : String) :
    Except ServiceError (UploadMap × FinalizeOut) :=
  match lookupA m uploadId with
  | none => Except.error ServiceError.sessionNotFound
  | some u =>
    if u.receivedChunks.card ≠ u.totalChunks then
      Except.error ServiceError.incompleteUpload
    else
      let sorted := sortDir u.tempDir
      let bytes := sorted.foldl (fun acc p => acc ++ p.2) []
      Except.ok (eraseA m uploadId,
        { fileId := fileId, fileName := u.fileName, fileBytes := bytes })

/-- upload.ts `cancelUpload`: removes the session if present; no-op
otherwise. -/
def cancelUpload (m : UploadMap) (uploadId : String) : UploadMap :=
  eraseA m uploadId

/-- Response of the status endpoint. -/
structure UploadStatusR where
  found : Bool
  received : Option Nat
  total : Option Nat
  complete : Option Bool
deriving DecidableEq

/-- upload.ts `getUploadStatus`: read-only snapshot of one session. -/
def getUploadStatus (m : UploadMap) (uploadId : String) : UploadStatusR :=
  match lookupA m uploadId with
  | none => { found := false, received := none, total := none, complete := none }
  | some u =>
    { found := true, received := some u.receivedChunks.card,
      total := some u.totalChunks,
      complete := some (u.receivedChunks.card == u.totalChunks) }

/-- upload.ts `cleanupStalledUploads`: removes every session whose age
exceeds `maxAgeMs` (the stale-session reaper; the source deletes the temp
directory and the map entry). -/
def cleanupStalledUploads (m : UploadMap) (now maxAgeMs : Nat) : UploadMap :=
  m.filter (fun p => ¬ maxAgeMs < now - p.2.createdAt)

/-- A stored file record of audio.ts (`uploadedFiles` / `processedFiles`
entries). -/
structure UploadFile where
  path : String
  name : String
deriving DecidableEq

/-- State of audio.ts: the in-memory uploaded-file cache plus the on-disk
sidecar metadata and audio files used by the recovery fallback of
`getUpload`. -/
structure AudioState where
  uploadedFiles : List (String × UploadFile)
  diskMeta : List (String × String)
  diskAudio : List (String × String)
deriving DecidableEq

/-- audio.ts `getUpload`: in-memory cache first, then recovery from the
on-disk sidecar JSON plus a matching audio file (re-populating the cache). -/
def getUpload (st : AudioState) (fileId : String) :
    Option UploadFile × AudioState :=
  match lookupA st.uploadedFiles fileId with
  | some f => (some f, st)
  | none =>
    match lookupA st.diskMeta fileId, lookupA st.diskAudio fileId with
    | some nm, some p =>
      let f : UploadFile := { path := p, name := nm }
      (some f, { st with uploadedFiles := insertA st.uploadedFiles fileId f })
    | some _, none => (none, st)
    | none, _ => (none, st)

/-- Job identifiers: `Date.now()` timestamp plus random suffix, as produced
by jobs.ts `generateId` (the string `ts + "-" + nonce`). -/
structure JobId where
  ts : Nat
  nonce : String
deriving DecidableEq

inductive JobStatus
  | pending
  | processing
  | complete
  | error
deriving DecidableEq

structure JobResult where
  downloadId : String
  fileName : String
deriving DecidableEq

/-- A published job event; constructors correspond to the three shapes
emitted by jobs.ts (`type` progress / complete / error). -/
inductive JobEvent
  | progress (value : Nat)
  | complete (result : JobResult)
  | error (msg : String)
deriving DecidableEq

/-- One processing job.  Subscriber callbacks are modelled by numeric ids;
their behaviour lives in an explicit environment (see `emitEvent`). -/
structure Job where
  id : JobId
  fileId : String
  status : JobStatus
  progress : Nat
  errorMsg : Option String
  result : Option JobResult
  subscribers : List Nat
deriving DecidableEq

abbrev JobMap := List (JobId × Job)

/-- JS `Set.add` on the subscriber set (insertion-ordered, deduplicated). -/
def addSub (subs : List Nat) (sid : Nat) : List Nat :=
  if sid ∈ subs then subs else subs ++ [sid]

/-- Behaviour environment for subscriber callbacks: whether a given
callback throws when invoked with a given event. -/
abbrev CallbackEnv := Nat → JobEvent → Bool

/-- One callback invocation: `Except.error` when the callback throws. -/
def invokeCallback (env : CallbackEnv) (sid : Nat) (e : JobEvent) :
    Except String Unit :=
  if env sid e then Except.error "callback threw" else Except.ok ()

/-- jobs.ts `emitEvent`: invoke every subscriber callback with the event,
swallowing (try/catch) any error a callback throws.  Returns the delivery
log: each subscriber paired with the event it was invoked with. -/
def emitEvent (env : CallbackEnv) (subs : List Nat) (e : JobEvent) :
    List (Nat × JobEvent) :=
  subs.foldl (fun log sid =>
    match invokeCallback env sid e with
    | Except.ok _ => log ++ [(sid, e)]
    | Except.error _ => log ++ [(sid, e)]) []

/-- jobs.ts `startJob`: fails with UploadNotFound when the file id has no
stored file; otherwise registers a fresh pending job with progress 0 and no
subscribers.  (The background processing it then spawns is modelled
separately by `processInBackground`.) -/
def startJob (audio : AudioState) (jobs : JobMap) (fileId : String)
    (newId : JobId) : Except ServiceError (JobMap × JobId) :=
  match (getUpload audio fileId).1 with
  | none => Except.error ServiceError.uploadNotFound
  | some _ =>
    let job : Job :=
      { id := newId, fileId := fileId, status := JobStatus.pending,
        progress := 0, errorMsg := none, result := none, subscribers := [] }
    Except.ok (insertA jobs newId job, newId)

/-- jobs.ts `getJob`. -/
def getJob (jobs : JobMap) (jobId : JobId) : Option Job :=
  lookupA jobs jobId

/-- jobs.ts `subscribeToJob`: fails with JobNotFound for an unknown id,
otherwise adds the callback to the job's subscriber set.  The returned
event list is what the new callback is synchronously invoked with during
subscription — the source invokes it with nothing, so this is always `[]`
on success. -/
def subscribeToJob (jobs : JobMap) (jobId : JobId) (sid : Nat) :
    Except ServiceError (JobMap × List JobEvent) :=
  match lookupA jobs jobId with
  | none => Except.error ServiceError.jobNotFound
  | some job =>
    Except.ok (insertA jobs jobId
      { job with subscribers := addSub job.subscribers sid }, [])

/-- The unsubscribe closure returned by `subscribeToJob`: removes the
callback from the set (no-op when already gone). -/
def unsubscribeFromJob (jobs : JobMap) (jobId : JobId) (sid : Nat) : JobMap :=
  match lookupA jobs jobId with
  | none => jobs
  | some job =>
    insertA jobs jobId { job with subscribers := job.subscribers.filter (· ≠ sid) }

/-- The two regex match results the stderr handler extracts from one data
chunk: `Duration: HH:MM:SS.cc` and `time=HH:MM:SS.cc`, each as the four
parsed integer groups. -/
structure StderrChunk where
  durationMatch : Option (Nat × Nat × Nat × Nat)
  timeMatch : Option (Nat × Nat × Nat × Nat)
deriving DecidableEq

/-- Convert parsed `(h, m, s, centis)` to integer centiseconds; the source
computes `h*3600 + m*60 + s + centis/100` floating seconds, which is this
value divided by 100. -/
def csOf : Nat × Nat × Nat × Nat → Nat
  | (h, m, s, c) => 360000 * h + 6000 * m + 100 * s + c

/-- The progress the handler computes from a position and a known duration
(both in centiseconds): `Math.min(99, Math.round(pos/dur * 100))`.
JS `Math.round x` for nonnegative `x` is `floor (x + 1/2)`, so the rounded
percentage is `(200*pos + dur) / (2*dur)` in integer division. -/
def progressOf (posCs durCs : Nat) : Nat :=
  min 99 ((200 * posCs + durCs) / (2 * durCs))

/-- Mutable locals of the stderr handler closure (jobs.ts lines 100-101),
duration in centiseconds. -/
structure ParseState where
  duration : Nat
  lastProgress : Nat
deriving DecidableEq

/-- Accumulator of the background run: parse state, the job record, and the
events published so far. -/
structure RunAcc where
  ps : ParseState
  job : Job
  events : List JobEvent
deriving DecidableEq

/-- The duration update of the stderr handler: while the recorded duration
is 0 the duration regex is tried on the chunk (first successful match
wins), afterwards the recorded value is kept. -/
def newDuration (ps : ParseState) (ch : StderrChunk) : Nat :=
  if ps.duration = 0 then
    match ch.durationMatch with
    | some q => csOf q
    | none => 0
  else ps.duration

/-- The stderr `data` handler (jobs.ts lines 107-136): parse the duration
once, then, when a time match is present and the duration is known,
compute the clamped rounded progress and publish it only if it exceeds the
last reported value. -/
def handleStderr (acc : RunAcc) (ch : StderrChunk) : RunAcc :=
  let dur := newDuration acc.ps ch
  match ch.timeMatch with
  | some t =>
    if 0 < dur then
      let p := progressOf (csOf t) dur
      if acc.ps.lastProgress < p then
        { ps := { duration := dur, lastProgress := p },
          job := { acc.job with progress := p },
          events := acc.events ++ [JobEvent.progress p] }
      else { acc with ps := { duration := dur, lastProgress := acc.ps.lastProgress } }
    else { acc with ps := { duration := dur, lastProgress := acc.ps.lastProgress } }
  | none => { acc with ps := { duration := dur, lastProgress := acc.ps.lastProgress } }

/-- How the ffmpeg child process ended: `closed code` for the `close` event
(`code` is `null` on signal death, modelled as `none`), `failed` for the
`error` event (spawn failure). -/
inductive FfmpegOutcome
  | closed (code : Option Int)
  | failed (msg : String)
deriving DecidableEq

/-- The rejection message produced for a non-success outcome. -/
def outcomeMsg : FfmpegOutcome → String
  | FfmpegOutcome.closed _ => "FFmpeg failed"
  | FfmpegOutcome.failed _ => "FFmpeg error"

/-- The initial fold accumulator of a background run: status set to
`processing` and the initial `progress 0` event published. -/
def acc0Of (job0 : Job) : RunAcc :=
  { ps := { duration := 0, lastProgress := 0 },
    job := { job0 with status := JobStatus.processing },
    events := [JobEvent.progress 0] }

/-- jobs.ts `processInBackground`, as a function of the job record, the
sequence of stderr chunks and the process outcome (the download id and
output name the source derives are explicit parameters).  Sets status
`processing` and publishes `progress 0`; folds the stderr handler over the
chunks; then on exit code 0 registers the result, sets status `complete`
with progress 100 and publishes one `complete` event, and on any other
outcome sets status `error` (leaving `progress` untouched) and publishes
one `error` event.  Returns the final job record and the full list of
published events. -/
def processInBackground (job0 : Job) (chunks : List StderrChunk)
    (outcome : FfmpegOutcome) (downloadId : String) (outputName : String) :
    Job × List JobEvent :=
  let acc := chunks.foldl handleStderr (acc0Of job0)
  if outcome = FfmpegOutcome.closed (some 0) then
    let r : JobResult := { downloadId := downloadId, fileName := outputName }
    ({ acc.job with status := JobStatus.complete, progress := 100,
                    result := some r },
     acc.events ++ [JobEvent.complete r])
  else
    ({ acc.job with status := JobStatus.error,
                    errorMsg := some (outcomeMsg outcome) },
     acc.events ++ [JobEvent.error (outcomeMsg outcome)])

/-- jobs.ts `cleanupOldJobs`: drop every job whose id timestamp is older
than `maxAgeMs`. -/
def cleanupOldJobs (jobs : JobMap) (now maxAgeMs : Nat) : JobMap :=
  jobs.filter (fun p => ¬ maxAgeMs < now - p.1.ts)

/-- A directory listing with modification times, as seen by the cleanup
sweeper. -/
abbrev AgedDir := List (FName × Nat)

def MAX_AGE_MS : Nat := 15 * 60 * 1000

/-- cleanup.ts `cleanupDirectory`: delete every entry older than
`maxAgeMs`. -/
def cleanupDirectory (entries : AgedDir) (now maxAgeMs : Nat) : AgedDir :=
  entries.filter (fun e => ¬ maxAgeMs < now - e.2)

/-- The state the cleanup sweeper acts on: the two blob directories, the
job registry, and the upload-session registry. -/
structure SweepState where
  uploadsDir : AgedDir
  outputDir : AgedDir
  jobs : JobMap
  activeUploads : UploadMap
deriving DecidableEq

/-- cleanup.ts `runCleanup`: sweeps the uploads directory, the output
directory and the job registry.  It does not call
`cleanupStalledUploads`, so the upload-session registry is untouched. -/
def runCleanup (st : SweepState) (now : Nat) : SweepState :=
  { st with uploadsDir := cleanupDirectory st.uploadsDir now MAX_AGE_MS,
            outputDir := cleanupDirectory st.outputDir now MAX_AGE_MS,
            jobs := cleanupOldJobs st.jobs now MAX_AGE_MS }

/-- An HTTP response of the route layer: 200 success envelope, or the
structured error envelope built by `error()` with its status code. -/
inductive ApiResp
  | okResp
  | errResp (status : Nat) (msg : String)
deriving DecidableEq

/-- HTTP status code of a response (success responses are 200). -/
def respStatus : ApiResp → Nat
  | ApiResp.okResp => 200
  | ApiResp.errResp s _ => s

/-- routes/audio.ts `/api/audio/upload/finalize`: 400 when `uploadId` is
missing or falsy, otherwise runs `finalizeUpload`; any thrown error is
caught and surfaced with status 500 and the error's message. -/
def finalizeRoute (m : UploadMap) (uploadId : Option String)
    (freshFileId : String) : ApiResp × UploadMap :=
  match uploadId with
  | none => (ApiResp.errResp 400 "uploadId required", m)
  | some uid =>
    if uid = "" then (ApiResp.errResp 400 "uploadId required", m)
    else
      match finalizeUpload m uid freshFileId with
      | Except.ok (m2, _) => (ApiResp.okResp, m2)
      | Except.error e => (ApiResp.errResp 500 (errorMessage e), m)

/-- routes/audio.ts `/api/audio/upload/chunk`: 400 when a form field is
missing (or the chunk index is NaN), otherwise runs `uploadChunk`; any
thrown error is caught and surfaced with status 500. -/
def chunkRoute (m : UploadMap) (uploadId : Option String)
    (chunkIndex : Option Int) (chunk : Option Bytes) : ApiResp × UploadMap :=
  match uploadId, chunkIndex, chunk with
  | some uid, some idx, some bytes =>
    if uid = "" then (ApiResp.errResp 400 "uploadId, chunkIndex, and chunk required", m)
    else
      match uploadChunk m uid idx bytes with
      | Except.ok (m2, _) => (ApiResp.okResp, m2)
      | Except.error e => (ApiResp.errResp 500 (errorMessage e), m)
  | _, _, _ => (ApiResp.errResp 400 "uploadId, chunkIndex, and chunk required", m)

/-- The known non-custom effect presets of types.ts `EFFECT_PRESETS`. -/
def knownPreset (p : String) : Bool :=
  p = "nightcore" || p = "slowreverb" || p = "vaporwave" || p = "daycore" ||
  p = "bassboost" || p = "8d" || p = "chipmunk" || p = "deepvoice"

/-- routes/audio.ts `/api/audio/process`: 400 without a file id; 404 when
`getUpload` knows nothing about the id; 400 for an invalid preset;
otherwise starts the job and returns its id. -/
def processRoute (audio : AudioState) (jobs : JobMap)
    (fileId : Option String) (preset : Option String) (newId : JobId) :
    ApiResp × AudioState × JobMap :=
  match fileId with
  | none => (ApiResp.errResp 400 "No fileId provided", audio, jobs)
  | some fid =>
    if fid = "" then (ApiResp.errResp 400 "No fileId provided", audio, jobs)
    else
      match getUpload audio fid with
      | (none, audio2) =>
        (ApiResp.errResp 404 "File not found. Please upload again.", audio2, jobs)
      | (some _, audio2) =>
        let presetOk := match preset with
          | some "custom" => true
          | some p => knownPreset p
          | none => false
        if presetOk then
          match startJob audio2 jobs fid newId with
          | Except.ok (jobs2, _) => (ApiResp.okResp, audio2, jobs2)
          | Except.error e => (ApiResp.errResp 500 (errorMessage e), audio2, jobs)
        else (ApiResp.errResp 400 "Invalid preset", audio2, jobs)

/-- routes/audio.ts `/api/audio/process/progress/:jobId`: 404 when the job
is unknown, otherwise opens the SSE stream (modelled as a success
response). -/
def progressRoute (jobs : JobMap) (jobId : JobId) : ApiResp :=
  match getJob jobs jobId with
  | none => ApiResp.errResp 404 "Job not found"
  | some _ => ApiResp.okResp

/-! Claim C1: finalize succeeds iff the received-index set equals
the full index range.  The code only compares the cardinality of the
received set with `totalChunks`, so a session holding an out-of-range
index can finalize despite a missing in-range index. -/

/-- The session registry reached by: init a 6,000,000-byte upload (2
chunks of 5 MiB), then upload chunk index 0 and chunk index 5. -/
def c1map : UploadMap :=
  match initChunkedUpload [] "u" "song.mp3" 6000000 0 with
  | Except.ok (m1, _) =>
    match uploadChunk m1 "u" 0 [1] with
    | Except.ok (m2, _) =>
      match uploadChunk m2 "u" 5 [2] with
      | Except.ok (m3, _) => m3
      | Except.error _ => []
    | Except.error _ => []
  | Except.error _ => []

/-- Witness for `c1_finalize_iff_card` at a concrete session with
`totalChunks = 2` and received set {0, 1}: every hypothesis holds and both
equivalences are realised (finalize succeeds). -/
def c1wsess : UploadSession :=
  { fileName := "song.mp3", totalChunks := 2, receivedChunks := {0, 1},
    tempDir := [(chunkName 0, [1]), (chunkName 1, [2])], createdAt := 0 }

/-! Claim C5: the range invariant on received chunk indices.  The code
performs no bounds check on `chunkIndex`, so the invariant is not
preserved for arbitrary integer indices. -/

def c5sess : UploadSession :=
  { fileName := "a.mp3", totalChunks := 1, receivedChunks := ∅,
    tempDir := [], createdAt := 0 }

/-! Claims C3, C4, C10: progress monotonicity, exactly one terminal event,
and the error transition leaving `progress` untouched. -/

/-- Progress payload of an event, when it is a progress event. -/
def progressValue : JobEvent → Option Nat
  | JobEvent.progress v => some v
  | JobEvent.complete _ => none
  | JobEvent.error _ => none

/-- The sequence of progress values carried by an event list. -/
def pvals (evs : List JobEvent) : List Nat := evs.filterMap progressValue

/-- Whether an event is terminal (complete or error). -/
def isTerminal : JobEvent → Bool
  | JobEvent.progress _ => false
  | JobEvent.complete _ => true
  | JobEvent.error _ => true

/-- Whether an event is a complete event. -/
def isCompleteEv : JobEvent → Bool
  | JobEvent.complete _ => true
  | JobEvent.progress _ => false
  | JobEvent.error _ => false

/-- Invariant of the stderr-handler fold: the published progress values are
strictly increasing and at most 99, and both the handler's `lastProgress`
and the job's `progress` field equal the last published value (0 before
any). -/
def EmitInv (acc : RunAcc) : Prop :=
  List.Chain' (· < ·) (pvals acc.events) ∧
  (∀ v ∈ pvals acc.events, v ≤ 99) ∧
  acc.ps.lastProgress = (pvals acc.events).getLastD 0 ∧
  acc.job.progress = (pvals acc.events).getLastD 0

/-- All events in the list are progress events. -/
def AllProg (evs : List JobEvent) : Prop := ∀ e ∈ evs, isTerminal e = false

/-- Witness inputs for C3 / C10: a pending job with progress 0 and a chunk
sequence declaring a 10-second duration then two positions. -/
def cJob : Job :=
  { id := { ts := 1, nonce := "n" }, fileId := "f", status := JobStatus.pending,
    progress := 0, errorMsg := none, result := none, subscribers := [] }

def cChunks : List StderrChunk :=
  [{ durationMatch := some (0, 0, 10, 0), timeMatch := none },
   { durationMatch := none, timeMatch := some (0, 0, 2, 50) },
   { durationMatch := none, timeMatch := some (0, 0, 5, 0) }]

/-- The sample completed job used to refute C2. -/
def c2result : JobResult := { downloadId := "dl7", fileName := "song_nightcore.mp3" }

def c2jid : JobId := { ts := 1000, nonce := "abc" }

def c2job : Job :=
  { id := c2jid, fileId := "f1", status := JobStatus.complete, progress := 100,
    errorMsg := none, result := some c2result, subscribers := [] }

def c2jobs : JobMap := [(c2jid, c2job)]

/-- A callback environment in which subscriber 1 always throws. -/
def c9env : CallbackEnv := fun sid _ => sid == 1

/-! Claim C8: the cleanup sweep and stale upload sessions.  `runCleanup`
sweeps the two blob directories and the job registry but never calls
`cleanupStalledUploads`, so stale sessions survive every sweep even though
the session reaper itself would remove exactly the stale ones. -/

/-- A session created at time 0 (stale at time 1,000,000 ms, past the
15-minute window) and one created at 950,000 ms (younger than the window). -/
def c8old : UploadSession :=
  { fileName := "old.mp3", totalChunks := 3, receivedChunks := {0},
    tempDir := [], createdAt := 0 }

def c8young : UploadSession :=
  { fileName := "young.mp3", totalChunks := 2, receivedChunks := ∅,
    tempDir := [], createdAt := 950000 }

def c8st : SweepState :=
  { uploadsDir := [], outputDir := [], jobs := [],
    activeUploads := [("old", c8old), ("young", c8young)] }

/-- The sortedness relation of the directory listing: the earlier entry's
name is not lexicographically greater. -/
def dirLe (p q : FName × Bytes) : Prop := nameLtb q.1 p.1 = false

/-- Decimal value of a digit-code string (inverse of `natDigits`). -/
def digitsVal (l : List Nat) : Nat := l.foldl (fun a c => 10 * a + (c - 48)) 0

/-- Uploading a list of chunk indices into a session, each with its own
payload, through the session-level core of `uploadChunk`. -/
def applySeq (u : UploadSession) (l : List Nat) (data : Nat → Bytes) :
    UploadSession :=
  l.foldl (fun (acc : UploadSession) (i : Nat) => applyChunk acc (i : Int) (data i)) u

/-- Witness inputs for C6: a fresh 3-chunk session, chunks uploaded in the
order [2, 0, 1]. -/
def c6u : UploadSession :=
  { fileName := "track.mp3", totalChunks := 3, receivedChunks := ∅,
    tempDir := [], createdAt := 0 }

def c6data : Nat → Bytes := fun i => [i, i]

theorem natDigitsAux_congr :
    ∀ f1 f2 n : Nat, n ≤ f1 → n ≤ f2 → natDigitsAux f1 n = natDigitsAux f2 n := by
  intro f1
  induction f1 with
  | zero =>
    intro f2 n h1 _
    interval_cases n
    cases f2 <;> rfl
  | succ f ih =>
    intro f2 n h1 h2
    match n, f2 with
    | 0, f2 => cases f2 <;> rfl
    | n + 1, f2 + 1 =>
      have hdiv : (n + 1) / 10 ≤ f := by
        have := Nat.div_lt_self (Nat.succ_pos n) (by norm_num : 1 < 10)
        omega
      have hdiv2 : (n + 1) / 10 ≤ f2 := by
        have := Nat.div_lt_self (Nat.succ_pos n) (by norm_num : 1 < 10)
        omega
      show natDigitsAux f ((n + 1) / 10) ++ _ = natDigitsAux f2 ((n + 1) / 10) ++ _
      rw [ih f2 ((n + 1) / 10) hdiv hdiv2]

/-- The recurrence `natDigits` satisfies: peel off the last digit. -/
theorem natDigits_succ (n : Nat) :
    natDigits (n + 1) = natDigits ((n + 1) / 10) ++ [digitCode ((n + 1) % 10)] := by
  show natDigitsAux (n + 1) (n + 1) = _
  have h1 : (n + 1) / 10 ≤ n := by
    have := Nat.div_lt_self (Nat.succ_pos n) (by norm_num : 1 < 10)
    omega
  show natDigitsAux n ((n + 1) / 10) ++ _ = natDigitsAux ((n + 1) / 10) ((n + 1) / 10) ++ _
  rw [natDigitsAux_congr n ((n + 1) / 10) ((n + 1) / 10) h1 le_rfl]

/-! Association-list lemmas shared by several claims. -/

theorem lookupA_insertA_self {κ β : Type} [DecidableEq κ] (m : List (κ × β))
    (k : κ) (v : β) : lookupA (insertA m k v) k = some v := by
  induction m with
  | nil => simp [insertA, lookupA]
  | cons p rest ih =>
    obtain ⟨k', w⟩ := p
    by_cases h : k' = k
    · subst h; simp [insertA, lookupA]
    · simp [insertA, lookupA, h, ih]

theorem lookupA_insertA_ne {κ β : Type} [DecidableEq κ] (m : List (κ × β))
    (k k' : κ) (v : β) (h : k ≠ k') :
    lookupA (insertA m k v) k' = lookupA m k' := by
  induction m with
  | nil => simp [insertA, lookupA, h]
  | cons p rest ih =>
    obtain ⟨k0, w⟩ := p
    by_cases h0 : k0 = k
    · subst h0; simp [insertA, lookupA, h]
    · simp only [insertA, if_neg h0]
      by_cases h1 : k0 = k'
      · subst h1; simp [lookupA]
      · simp [lookupA, h1, ih]

/-- Claim C1 is false on the code: in the session reached above,
index 1 of the range [0, 2) was never received, yet `finalizeUpload`
succeeds instead of failing with IncompleteUpload. -/
theorem c1_claim_false :
    (finalizeUpload c1map "u" "fid").isOk = true ∧
    (lookupA c1map "u").map (fun u => u.totalChunks) = some 2 ∧
    (lookupA c1map "u").map (fun u => decide ((1 : Int) ∈ u.receivedChunks)) =
      some false := by decide

/-- Amended C1: `finalizeUpload` succeeds iff the received-set cardinality
equals `totalChunks` (failing with IncompleteUpload otherwise and
producing no stored file); only under the additional invariant that every
received index lies in [0, totalChunks) is this equivalent to the
received set being exactly the full index range. -/
theorem c1_finalize_iff_card (m : UploadMap) (uploadId fileId : String)
    (u : UploadSession) (hu : lookupA m uploadId = some u) :
    ((finalizeUpload m uploadId fileId).isOk = true ↔
      u.receivedChunks.card = u.totalChunks) ∧
    (u.receivedChunks.card ≠ u.totalChunks →
      finalizeUpload m uploadId fileId =
        Except.error ServiceError.incompleteUpload) ∧
    ((∀ i ∈ u.receivedChunks, 0 ≤ i ∧ i < (u.totalChunks : Int)) →
      ((finalizeUpload m uploadId fileId).isOk = true ↔
        u.receivedChunks =
          (Finset.range u.totalChunks).image (fun k : Nat => (k : Int)))) := by
  have hinj : Function.Injective (fun k : Nat => (k : Int)) := by
    intro a b h; simpa using h
  have hcard :
      ((Finset.range u.totalChunks).image (fun k : Nat => (k : Int))).card =
        u.totalChunks := by
    rw [Finset.card_image_of_injective _ hinj, Finset.card_range]
  have hbase : (finalizeUpload m uploadId fileId).isOk = true ↔
      u.receivedChunks.card = u.totalChunks := by
    simp only [finalizeUpload, hu]
    by_cases h : u.receivedChunks.card = u.totalChunks
    · simp [h, Except.isOk, Except.toBool]
    · simp [h, Except.isOk, Except.toBool]
  refine ⟨hbase, ?_, ?_⟩
  · intro h
    simp only [finalizeUpload, hu]
    simp [h]
  · intro hbound
    have hsub : u.receivedChunks ⊆
        (Finset.range u.totalChunks).image (fun k : Nat => (k : Int)) := by
      intro i hi
      obtain ⟨h0, hlt⟩ := hbound i hi
      refine Finset.mem_image.mpr ⟨i.toNat, Finset.mem_range.mpr ?_, ?_⟩
      · omega
      · simpa using Int.toNat_of_nonneg h0
    constructor
    · intro hok
      have hc := hbase.mp hok
      exact Finset.eq_of_subset_of_card_le hsub (by rw [hcard, hc])
    · intro heq
      refine hbase.mpr ?_
      rw [heq, hcard]

theorem c1_finalize_iff_card_witness :
    lookupA [("u", c1wsess)] "u" = some c1wsess ∧
    (∀ i ∈ c1wsess.receivedChunks, 0 ≤ i ∧ i < (c1wsess.totalChunks : Int)) ∧
    ((finalizeUpload [("u", c1wsess)] "u" "f").isOk = true ↔
      c1wsess.receivedChunks.card = c1wsess.totalChunks) ∧
    ((finalizeUpload [("u", c1wsess)] "u" "f").isOk = true ↔
      c1wsess.receivedChunks =
        (Finset.range c1wsess.totalChunks).image (fun k : Nat => (k : Int))) :=
  ⟨by decide, by decide,
   (c1_finalize_iff_card [("u", c1wsess)] "u" "f" c1wsess (by decide)).1,
   (c1_finalize_iff_card [("u", c1wsess)] "u" "f" c1wsess (by decide)).2.2
     (by decide)⟩

/-- Claim C5 is false on the code: uploading chunk index 1 into a
1-chunk session (whose received set satisfies the invariant vacuously)
succeeds and leaves index 1 in the received set, outside [0, 1). -/
theorem c5_claim_false :
    (uploadChunk [("u", c5sess)] "u" 1 [7]).toOption.map
        (fun p => (lookupA p.1 "u").map
          (fun u => decide ((1 : Int) ∈ u.receivedChunks ∧
            ¬ (1 : Int) < (u.totalChunks : Int)))) = some (some true) := by
  decide

/-- Amended C5: `uploadChunk` adds the index unconditionally, so the range
invariant is preserved exactly when the uploaded index itself lies in
[0, totalChunks); for such an index the updated session keeps the
invariant and its received set is `insert chunkIndex` of the old one. -/
theorem c5_inv_preserved (m : UploadMap) (uploadId : String) (idx : Int)
    (data : Bytes) (u : UploadSession) (hu : lookupA m uploadId = some u)
    (hinv : ∀ i ∈ u.receivedChunks, 0 ≤ i ∧ i < (u.totalChunks : Int))
    (hidx : 0 ≤ idx ∧ idx < (u.totalChunks : Int)) :
    ∃ m2 ack, uploadChunk m uploadId idx data = Except.ok (m2, ack) ∧
      lookupA m2 uploadId = some (applyChunk u idx data) ∧
      (applyChunk u idx data).receivedChunks = insert idx u.receivedChunks ∧
      ∀ i ∈ (applyChunk u idx data).receivedChunks,
        0 ≤ i ∧ i < ((applyChunk u idx data).totalChunks : Int) := by
  have hrun : uploadChunk m uploadId idx data =
      Except.ok (insertA m uploadId (applyChunk u idx data),
        { received := (applyChunk u idx data).receivedChunks.card,
          total := (applyChunk u idx data).totalChunks,
          complete := (applyChunk u idx data).receivedChunks.card ==
            (applyChunk u idx data).totalChunks }) := by
    simp [uploadChunk, hu]
  refine ⟨_, _, hrun, lookupA_insertA_self m uploadId (applyChunk u idx data),
    rfl, ?_⟩
  intro i hi
  simp only [applyChunk, Finset.mem_insert] at hi
  rcases hi with hi | hi
  · subst hi; exact hidx
  · exact hinv i hi

theorem c5_inv_preserved_witness :
    lookupA [("u", c5sess)] "u" = some c5sess ∧
    (∀ i ∈ c5sess.receivedChunks, 0 ≤ i ∧ i < (c5sess.totalChunks : Int)) ∧
    (0 ≤ (0 : Int) ∧ (0 : Int) < (c5sess.totalChunks : Int)) ∧
    (∃ m2 ack, uploadChunk [("u", c5sess)] "u" 0 [7] = Except.ok (m2, ack) ∧
      lookupA m2 "u" = some (applyChunk c5sess 0 [7]) ∧
      (applyChunk c5sess 0 [7]).receivedChunks = insert 0 c5sess.receivedChunks ∧
      ∀ i ∈ (applyChunk c5sess 0 [7]).receivedChunks,
        0 ≤ i ∧ i < ((applyChunk c5sess 0 [7]).totalChunks : Int)) :=
  ⟨by decide, by decide, by decide,
   c5_inv_preserved [("u", c5sess)] "u" 0 [7] c5sess (by decide) (by decide)
     (by decide)⟩

theorem pvals_append (l1 l2 : List JobEvent) :
    pvals (l1 ++ l2) = pvals l1 ++ pvals l2 :=
  List.filterMap_append ..

theorem processInBackground_success (job0 : Job) (chunks : List StderrChunk)
    (downloadId outputName : String) :
    processInBackground job0 chunks (FfmpegOutcome.closed (some 0))
      downloadId outputName =
    ({ (chunks.foldl handleStderr (acc0Of job0)).job with
        status := JobStatus.complete, progress := 100,
        result := some { downloadId := downloadId, fileName := outputName } },
     (chunks.foldl handleStderr (acc0Of job0)).events ++
       [JobEvent.complete { downloadId := downloadId, fileName := outputName }]) :=
  rfl

theorem processInBackground_failure (job0 : Job) (chunks : List StderrChunk)
    (outcome : FfmpegOutcome) (downloadId outputName : String)
    (h : outcome ≠ FfmpegOutcome.closed (some 0)) :
    processInBackground job0 chunks outcome downloadId outputName =
    ({ (chunks.foldl handleStderr (acc0Of job0)).job with
        status := JobStatus.error, errorMsg := some (outcomeMsg outcome) },
     (chunks.foldl handleStderr (acc0Of job0)).events ++
       [JobEvent.error (outcomeMsg outcome)]) := by
  simp only [processInBackground]
  rw [if_neg h]

theorem eq_getLastD_of_mem_getLast? {l : List Nat} {x : Nat}
    (hx : x ∈ l.getLast?) : x = l.getLastD 0 := by
  rw [List.getLastD_eq_getLast?, Option.mem_def] at *
  rw [hx]
  rfl

theorem getLastD_le_of_all : ∀ (l : List Nat) (d : Nat), d ≤ 99 →
    (∀ v ∈ l, v ≤ 99) → l.getLastD d ≤ 99 := by
  intro l
  induction l with
  | nil => intro d hd _; simpa using hd
  | cons x xs ih =>
    intro d _ h
    rw [List.getLastD_cons]
    exact ih x (h x (by simp)) (fun v hv => h v (by simp [hv]))

theorem emitInv_step (acc : RunAcc) (ch : StderrChunk) (h : EmitInv acc) :
    EmitInv (handleStderr acc ch) := by
  obtain ⟨hchain, hbound, hlast, hjob⟩ := h
  unfold handleStderr
  rcases htm : ch.timeMatch with _ | t
  · exact ⟨hchain, hbound, hlast, hjob⟩
  · dsimp only
    split_ifs with hdur hlt
    · refine ⟨?_, ?_, ?_, ?_⟩
      · show List.Chain' (· < ·) (pvals (acc.events ++ [JobEvent.progress _]))
        rw [pvals_append]
        refine List.chain'_append.mpr ⟨hchain, by simp [pvals, progressValue], ?_⟩
        intro x hx y hy
        simp only [pvals, progressValue, List.filterMap, List.head?] at hy
        rw [Option.mem_def, Option.some.injEq] at hy
        subst hy
        rw [eq_getLastD_of_mem_getLast? hx, ← hlast]
        exact hlt
      · show ∀ v ∈ pvals (acc.events ++ [JobEvent.progress _]), v ≤ 99
        rw [pvals_append]
        intro v hv
        rcases List.mem_append.mp hv with hv | hv
        · exact hbound v hv
        · simp only [pvals, progressValue, List.filterMap, List.mem_singleton] at hv
          subst hv
          exact min_le_left 99 _
      · show _ = (pvals (acc.events ++ [JobEvent.progress _])).getLastD 0
        rw [pvals_append]
        show _ = (pvals acc.events ++ [_]).getLastD 0
        rw [List.getLastD_concat]
      · show _ = (pvals (acc.events ++ [JobEvent.progress _])).getLastD 0
        rw [pvals_append]
        show _ = (pvals acc.events ++ [_]).getLastD 0
        rw [List.getLastD_concat]
    · exact ⟨hchain, hbound, hlast, hjob⟩
    · exact ⟨hchain, hbound, hlast, hjob⟩

theorem allProg_step (acc : RunAcc) (ch : StderrChunk)
    (h : AllProg acc.events) : AllProg (handleStderr acc ch).events := by
  unfold handleStderr
  rcases htm : ch.timeMatch with _ | t
  · exact h
  · dsimp only
    split_ifs with hdur hlt
    · intro e he
      rcases List.mem_append.mp he with he | he
      · exact h e he
      · rw [List.mem_singleton] at he
        subst he
        rfl
    · exact h
    · exact h

theorem foldl_handleStderr_inv (P : RunAcc → Prop)
    (hstep : ∀ acc ch, P acc → P (handleStderr acc ch)) :
    ∀ (chunks : List StderrChunk) (acc : RunAcc),
      P acc → P (chunks.foldl handleStderr acc) := by
  intro chunks
  induction chunks with
  | nil => intro acc h; exact h
  | cons c cs ih => intro acc h; exact ih _ (hstep acc c h)

theorem emitInv_acc0 (job0 : Job) (h0 : job0.progress = 0) :
    EmitInv (acc0Of job0) := by
  refine ⟨by simp [acc0Of, pvals, progressValue], ?_,
    by simp [acc0Of, pvals, progressValue], ?_⟩
  · intro v hv
    simp only [acc0Of, pvals, progressValue, List.filterMap,
      List.mem_singleton] at hv
    omega
  · simpa [acc0Of, pvals, progressValue] using h0

/-- C3: for a job started with progress 0 (as `startJob` creates it), the
sequence of progress values published over the whole run is strictly
increasing and bounded by 99, and the final job record's progress field is
100 exactly when its status is complete. -/
theorem c3_progress_monotone (job0 : Job) (chunks : List StderrChunk)
    (outcome : FfmpegOutcome) (downloadId outputName : String)
    (h0 : job0.progress = 0) :
    List.Chain' (· < ·)
      (pvals (processInBackground job0 chunks outcome downloadId outputName).2) ∧
    (∀ v ∈ pvals (processInBackground job0 chunks outcome downloadId outputName).2,
      v ≤ 99) ∧
    ((processInBackground job0 chunks outcome downloadId outputName).1.progress =
        100 ↔
      (processInBackground job0 chunks outcome downloadId outputName).1.status =
        JobStatus.complete) := by
  obtain ⟨hchain, hbound, hlast, hjob⟩ :=
    foldl_handleStderr_inv EmitInv emitInv_step chunks _ (emitInv_acc0 job0 h0)
  by_cases hoc : outcome = FfmpegOutcome.closed (some 0)
  · subst hoc
    rw [processInBackground_success]
    refine ⟨?_, ?_, by simp⟩
    · rw [pvals_append]
      simpa [pvals, progressValue] using hchain
    · rw [pvals_append]
      intro v hv
      rcases List.mem_append.mp hv with hv | hv
      · exact hbound v hv
      · simp [pvals, progressValue] at hv
  · rw [processInBackground_failure job0 chunks outcome downloadId outputName hoc]
    have hle : (chunks.foldl handleStderr (acc0Of job0)).job.progress ≤ 99 := by
      rw [hjob]
      exact getLastD_le_of_all _ 0 (by omega) hbound
    refine ⟨?_, ?_, ?_⟩
    · rw [pvals_append]
      simpa [pvals, progressValue] using hchain
    · rw [pvals_append]
      intro v hv
      rcases List.mem_append.mp hv with hv | hv
      · exact hbound v hv
      · simp [pvals, progressValue] at hv
    · constructor
      · intro h100
        simp only at h100
        omega
      · intro hst
        simp at hst

theorem c3_progress_monotone_witness :
    cJob.progress = 0 ∧
    (List.Chain' (· < ·)
      (pvals (processInBackground cJob cChunks
        (FfmpegOutcome.closed (some 0)) "d" "o.mp3").2) ∧
    (∀ v ∈ pvals (processInBackground cJob cChunks
        (FfmpegOutcome.closed (some 0)) "d" "o.mp3").2, v ≤ 99) ∧
    ((processInBackground cJob cChunks
        (FfmpegOutcome.closed (some 0)) "d" "o.mp3").1.progress = 100 ↔
      (processInBackground cJob cChunks
        (FfmpegOutcome.closed (some 0)) "d" "o.mp3").1.status =
        JobStatus.complete)) :=
  ⟨rfl, c3_progress_monotone cJob cChunks (FfmpegOutcome.closed (some 0))
    "d" "o.mp3" rfl⟩

/-- C4: every run publishes exactly one terminal event, it is the last
published event, it is a complete event exactly when the tool exited with
code 0, the final status is complete exactly in that case, and the final
status is always terminal. -/
theorem c4_exactly_one_terminal (job0 : Job) (chunks : List StderrChunk)
    (outcome : FfmpegOutcome) (downloadId outputName : String) :
    ∃ t : JobEvent,
      (processInBackground job0 chunks outcome downloadId outputName).2.filter
        isTerminal = [t] ∧
      (processInBackground job0 chunks outcome downloadId outputName).2.getLast? =
        some t ∧
      (isCompleteEv t = true ↔ outcome = FfmpegOutcome.closed (some 0)) ∧
      ((processInBackground job0 chunks outcome downloadId outputName).1.status =
          JobStatus.complete ↔ outcome = FfmpegOutcome.closed (some 0)) ∧
      ((processInBackground job0 chunks outcome downloadId outputName).1.status =
          JobStatus.complete ∨
        (processInBackground job0 chunks outcome downloadId outputName).1.status =
          JobStatus.error) := by
  have hall : AllProg (chunks.foldl handleStderr (acc0Of job0)).events := by
    refine foldl_handleStderr_inv (fun acc => AllProg acc.events)
      (fun acc ch h => allProg_step acc ch h) chunks _ ?_
    intro e he
    rw [acc0Of] at he
    rw [List.mem_singleton] at he
    subst he
    rfl
  have hfilter :
      (chunks.foldl handleStderr (acc0Of job0)).events.filter isTerminal = [] := by
    rw [List.filter_eq_nil_iff]
    intro e he
    simp [hall e he]
  by_cases hoc : outcome = FfmpegOutcome.closed (some 0)
  · subst hoc
    rw [processInBackground_success]
    refine ⟨JobEvent.complete { downloadId := downloadId, fileName := outputName },
      ?_, List.getLast?_concat _, by simp [isCompleteEv], by simp, by simp⟩
    rw [List.filter_append, hfilter]
    rfl
  · rw [processInBackground_failure job0 chunks outcome downloadId outputName hoc]
    refine ⟨JobEvent.error (outcomeMsg outcome),
      ?_, List.getLast?_concat _, by simp [isCompleteEv, hoc], by simp [hoc], by simp⟩
    rw [List.filter_append, hfilter]
    rfl

/-- C10: on any non-success outcome the job ends in status error with its
progress field equal to the last published progress value (not reset to 0,
never 100 — it stays at most 99). -/
theorem c10_error_retains_progress (job0 : Job) (chunks : List StderrChunk)
    (outcome : FfmpegOutcome) (downloadId outputName : String)
    (h0 : job0.progress = 0) (herr : outcome ≠ FfmpegOutcome.closed (some 0)) :
    (processInBackground job0 chunks outcome downloadId outputName).1.status =
      JobStatus.error ∧
    (processInBackground job0 chunks outcome downloadId outputName).1.progress =
      (pvals (processInBackground job0 chunks outcome downloadId outputName).2).getLastD
        0 ∧
    (processInBackground job0 chunks outcome downloadId outputName).1.progress ≤
      99 := by
  obtain ⟨hchain, hbound, hlast, hjob⟩ :=
    foldl_handleStderr_inv EmitInv emitInv_step chunks _ (emitInv_acc0 job0 h0)
  have hle : (chunks.foldl handleStderr (acc0Of job0)).job.progress ≤ 99 := by
    rw [hjob]
    exact getLastD_le_of_all _ 0 (by omega) hbound
  rw [processInBackground_failure job0 chunks outcome downloadId outputName herr]
  refine ⟨rfl, ?_, hle⟩
  rw [pvals_append]
  show _ = (pvals _ ++ []).getLastD 0
  rw [List.append_nil]
  exact hjob

theorem c10_error_retains_progress_witness :
    cJob.progress = 0 ∧
    FfmpegOutcome.failed "spawn ENOENT" ≠ FfmpegOutcome.closed (some 0) ∧
    ((processInBackground cJob cChunks
        (FfmpegOutcome.failed "spawn ENOENT") "d" "o.mp3").1.status =
      JobStatus.error ∧
    (processInBackground cJob cChunks
        (FfmpegOutcome.failed "spawn ENOENT") "d" "o.mp3").1.progress =
      (pvals (processInBackground cJob cChunks
        (FfmpegOutcome.failed "spawn ENOENT") "d" "o.mp3").2).getLastD 0 ∧
    (processInBackground cJob cChunks
        (FfmpegOutcome.failed "spawn ENOENT") "d" "o.mp3").1.progress ≤ 99) :=
  ⟨rfl, by decide,
   c10_error_retains_progress cJob cChunks (FfmpegOutcome.failed "spawn ENOENT")
     "d" "o.mp3" rfl (by decide)⟩

/-! Claims C2 and C9: the event broker.  `subscribeToJob` registers the
callback but never invokes it with a snapshot, so the replay semantics the
spec describes do not exist in the code; `emitEvent` isolates callback
failures per subscriber. -/

theorem emitEvent_eq_map (env : CallbackEnv) (subs : List Nat) (e : JobEvent) :
    emitEvent env subs e = subs.map (fun s => (s, e)) := by
  suffices h : ∀ acc : List (Nat × JobEvent),
      subs.foldl (fun log sid =>
        match invokeCallback env sid e with
        | Except.ok _ => log ++ [(sid, e)]
        | Except.error _ => log ++ [(sid, e)]) acc =
      acc ++ subs.map (fun s => (s, e)) by
    simpa [emitEvent] using h []
  induction subs with
  | nil => intro acc; simp
  | cons s rest ih =>
    intro acc
    rw [List.foldl_cons, List.map_cons]
    cases hinv : invokeCallback env s e with
    | ok u => rw [ih]; simp
    | error msg => rw [ih]; simp

theorem mem_addSub_self (subs : List Nat) (sid : Nat) : sid ∈ addSub subs sid := by
  unfold addSub
  split_ifs with h
  · exact h
  · simp

/-- Claim C2 is false on the code: subscribing to a job that has already
completed (status complete, stored result present) synchronously delivers
no event at all to the new callback — not the one `complete` snapshot
event the claim requires. -/
theorem c2_claim_false :
    (lookupA c2jobs c2jid).map (fun j => (j.status, j.result)) =
      some (JobStatus.complete, some c2result) ∧
    (subscribeToJob c2jobs c2jid 0).toOption.map Prod.snd = some [] ∧
    ([] : List JobEvent) ≠ [JobEvent.complete c2result] := by decide

/-- Amended C2: `subscribeToJob` only registers the callback (deduplicated
set add) and synchronously delivers no snapshot event whatever the job's
state; the subscriber receives exactly the events published after it
joined (every later `emitEvent` reaches it). -/
theorem c2_subscribe_no_replay (jobs : JobMap) (jid : JobId) (sid : Nat)
    (job : Job) (hj : lookupA jobs jid = some job) :
    subscribeToJob jobs jid sid =
      Except.ok (insertA jobs jid
        { job with subscribers := addSub job.subscribers sid }, []) ∧
    ∀ (env : CallbackEnv) (e : JobEvent),
      (sid, e) ∈ emitEvent env (addSub job.subscribers sid) e := by
  constructor
  · simp [subscribeToJob, hj]
  · intro env e
    rw [emitEvent_eq_map]
    exact List.mem_map.mpr ⟨sid, mem_addSub_self _ _, rfl⟩

theorem c2_subscribe_no_replay_witness :
    lookupA c2jobs c2jid = some c2job ∧
    subscribeToJob c2jobs c2jid 0 =
      Except.ok (insertA c2jobs c2jid
        { c2job with subscribers := addSub c2job.subscribers 0 }, []) ∧
    (0, JobEvent.progress 5) ∈
      emitEvent (fun _ _ => false) (addSub c2job.subscribers 0)
        (JobEvent.progress 5) :=
  ⟨by decide,
   (c2_subscribe_no_replay c2jobs c2jid 0 c2job (by decide)).1,
   (c2_subscribe_no_replay c2jobs c2jid 0 c2job (by decide)).2
     (fun _ _ => false) (JobEvent.progress 5)⟩

/-- C9: delivery is isolated per subscriber — even when some registered
callback throws on the event, every registered subscriber is still invoked
with the event (the try/catch swallows the failure). -/
theorem c9_callback_isolation (env : CallbackEnv) (subs : List Nat)
    (e : JobEvent) (bad : Nat) (_hbad : bad ∈ subs)
    (_hthrows : env bad e = true) :
    ∀ s ∈ subs, (s, e) ∈ emitEvent env subs e := by
  intro s hs
  rw [emitEvent_eq_map]
  exact List.mem_map.mpr ⟨s, hs, rfl⟩

theorem c9_callback_isolation_witness :
    1 ∈ [0, 1, 2] ∧ c9env 1 (JobEvent.progress 5) = true ∧
    (2, JobEvent.progress 5) ∈ emitEvent c9env [0, 1, 2] (JobEvent.progress 5) :=
  ⟨by decide, by decide,
   c9_callback_isolation c9env [0, 1, 2] (JobEvent.progress 5) 1 (by decide)
     (by decide) 2 (by decide)⟩

/-! Claim C7: how the not-found error family reaches the HTTP client.
JobNotFound and UploadNotFound are surfaced with status 404, but
SessionNotFound thrown inside the chunk and finalize handlers is caught by
the generic handler and surfaced with status 500. -/

/-- Claim C7 is false on the code: finalizing an unknown upload session
produces a structured error response with status 500, not a 404-equivalent
one. -/
theorem c7_claim_false :
    (finalizeRoute [] (some "nope") "fid").1 =
      ApiResp.errResp 500 (errorMessage ServiceError.sessionNotFound) ∧
    respStatus (finalizeRoute [] (some "nope") "fid").1 = 500 ∧
    (500 : Nat) ≠ 404 := by decide

/-- Amended C7: unknown job ids (progress route) and unknown file ids
(process route) are surfaced as 404 structured errors, but an unknown or
expired upload session id in the chunk or finalize route is surfaced as a
500 structured error carrying the SessionNotFound message. -/
theorem c7_not_found_statuses :
    (∀ (jobs : JobMap) (jid : JobId), lookupA jobs jid = none →
      progressRoute jobs jid = ApiResp.errResp 404 "Job not found") ∧
    (∀ (audio : AudioState) (jobs : JobMap) (fid : String) (newId : JobId),
      fid ≠ "" → (getUpload audio fid).1 = none → ∀ preset : Option String,
      (processRoute audio jobs (some fid) preset newId).1 =
        ApiResp.errResp 404 "File not found. Please upload again.") ∧
    (∀ (m : UploadMap) (uid fileId : String), uid ≠ "" →
      lookupA m uid = none →
      (finalizeRoute m (some uid) fileId).1 =
        ApiResp.errResp 500 (errorMessage ServiceError.sessionNotFound)) ∧
    (∀ (m : UploadMap) (uid : String) (idx : Int) (bytes : Bytes), uid ≠ "" →
      lookupA m uid = none →
      (chunkRoute m (some uid) (some idx) (some bytes)).1 =
        ApiResp.errResp 500 (errorMessage ServiceError.sessionNotFound)) := by
  refine ⟨?_, ?_, ?_, ?_⟩
  · intro jobs jid h
    simp [progressRoute, getJob, h]
  · intro audio jobs fid newId hne hnone preset
    rcases hg : getUpload audio fid with ⟨o, a2⟩
    rw [hg] at hnone
    simp only at hnone
    subst hnone
    simp [processRoute, hne, hg]
  · intro m uid fileId hne hnone
    simp [finalizeRoute, hne, finalizeUpload, hnone]
  · intro m uid idx bytes hne hnone
    simp [chunkRoute, hne, uploadChunk, hnone]

theorem c7_not_found_statuses_witness :
    lookupA ([] : JobMap) { ts := 0, nonce := "x" } = none ∧
    progressRoute [] { ts := 0, nonce := "x" } =
      ApiResp.errResp 404 "Job not found" ∧
    (processRoute { uploadedFiles := [], diskMeta := [], diskAudio := [] } []
        (some "f1") (some "nightcore") { ts := 0, nonce := "x" }).1 =
      ApiResp.errResp 404 "File not found. Please upload again." ∧
    (finalizeRoute [] (some "u1") "fid").1 =
      ApiResp.errResp 500 (errorMessage ServiceError.sessionNotFound) ∧
    (chunkRoute [] (some "u1") (some 0) (some [1])).1 =
      ApiResp.errResp 500 (errorMessage ServiceError.sessionNotFound) :=
  ⟨rfl,
   c7_not_found_statuses.1 [] { ts := 0, nonce := "x" } rfl,
   c7_not_found_statuses.2.1
     { uploadedFiles := [], diskMeta := [], diskAudio := [] } [] "f1"
     { ts := 0, nonce := "x" } (by decide) rfl (some "nightcore"),
   c7_not_found_statuses.2.2.1 [] "u1" "fid" (by decide) rfl,
   c7_not_found_statuses.2.2.2 [] "u1" 0 [1] (by decide) rfl⟩

/-- C8 evaluated: a sweep never touches the upload-session registry (first
conjunct), so the stale session is still reported as existing after the
sweep, although the stale-session reaper the spec says the sweep invokes
would have removed exactly it and kept the young one. -/
theorem c8_sweep_misses_sessions :
    (∀ (st : SweepState) (now : Nat),
      (runCleanup st now).activeUploads = st.activeUploads) ∧
    (getUploadStatus (runCleanup c8st 1000000).activeUploads "old").found =
      true ∧
    (getUploadStatus
      (cleanupStalledUploads c8st.activeUploads 1000000 MAX_AGE_MS)
      "old").found = false ∧
    (getUploadStatus
      (cleanupStalledUploads c8st.activeUploads 1000000 MAX_AGE_MS)
      "young").found = true :=
  ⟨fun _ _ => rfl, by decide, by decide, by decide⟩

/-! Claim C6: order independence of chunk delivery.  The machinery below
establishes that the lexicographic sort of the temp directory is uniquely
determined by the set of (name, bytes) entries when the names are distinct,
and that the padded decimal chunk names of distinct indices are distinct. -/

theorem nameLtb_irrefl : ∀ a : FName, nameLtb a a = false := by
  intro a
  induction a with
  | nil => rfl
  | cons x xs ih => simp [nameLtb, ih]

theorem nameLtb_asymm : ∀ a b : FName, nameLtb a b = true → nameLtb b a = false := by
  intro a
  induction a with
  | nil =>
    intro b h
    cases b with
    | nil => simp [nameLtb] at h
    | cons y ys => rfl
  | cons x xs ih =>
    intro b h
    cases b with
    | nil => simp [nameLtb] at h
    | cons y ys =>
      simp only [nameLtb] at h ⊢
      by_cases hxy : x < y
      · have hyx : ¬ y < x := by omega
        rw [if_neg hyx, if_pos hxy]
      · by_cases hyx : y < x
        · rw [if_neg hxy, if_pos hyx] at h
          exact absurd h (by simp)
        · rw [if_neg hxy, if_neg hyx] at h
          rw [if_neg hyx, if_neg hxy]
          exact ih ys h

theorem nameLtb_conn : ∀ a b : FName, nameLtb a b = false → nameLtb b a = false →
    a = b := by
  intro a
  induction a with
  | nil =>
    intro b h1 _
    cases b with
    | nil => rfl
    | cons y ys => simp [nameLtb] at h1
  | cons x xs ih =>
    intro b h1 h2
    cases b with
    | nil => simp [nameLtb] at h2
    | cons y ys =>
      simp only [nameLtb] at h1 h2
      by_cases hxy : x < y
      · rw [if_pos hxy] at h1
        exact absurd h1 (by simp)
      · by_cases hyx : y < x
        · rw [if_pos hyx] at h2
          exact absurd h2 (by simp)
        · have hxe : x = y := by omega
          subst hxe
          rw [if_neg hxy, if_neg hyx] at h1
          rw [if_neg hyx, if_neg hxy] at h2
          rw [ih ys h1 h2]

theorem nameLtb_trans_neg : ∀ p q r : FName, nameLtb q p = false →
    nameLtb r q = false → nameLtb r p = false := by
  intro p
  induction p with
  | nil =>
    intro q r h1 h2
    cases r with
    | nil => rfl
    | cons z zs => rfl
  | cons x xs ih =>
    intro q r h1 h2
    cases r with
    | nil =>
      cases q with
      | nil => simp [nameLtb] at h1
      | cons y ys => simp [nameLtb] at h2
    | cons z zs =>
      cases q with
      | nil => simp [nameLtb] at h1
      | cons y ys =>
        simp only [nameLtb] at h1 h2 ⊢
        by_cases hyx : y < x
        · rw [if_pos hyx] at h1
          exact absurd h1 (by simp)
        · by_cases hzy : z < y
          · rw [if_pos hzy] at h2
            exact absurd h2 (by simp)
          · have hzx : ¬ z < x := by omega
            rw [if_neg hzx]
            by_cases hxz : x < z
            · rw [if_pos hxz]
            · have hxy : ¬ x < y := by omega
              have hyz : ¬ y < z := by omega
              rw [if_neg hyx, if_neg hxy] at h1
              rw [if_neg hzy, if_neg hyz] at h2
              rw [if_neg hxz]
              exact ih ys zs h1 h2

theorem mem_insertSorted (p q : FName × Bytes) :
    ∀ l : Dir, q ∈ insertSorted p l ↔ q = p ∨ q ∈ l := by
  intro l
  induction l with
  | nil => simp [insertSorted]
  | cons r rest ih =>
    simp only [insertSorted]
    split_ifs with h
    · rw [List.mem_cons, ih, List.mem_cons]
      tauto
    · simp only [List.mem_cons]

theorem insertSorted_perm (p : FName × Bytes) :
    ∀ l : Dir, (insertSorted p l).Perm (p :: l) := by
  intro l
  induction l with
  | nil => exact List.Perm.refl _
  | cons q rest ih =>
    simp only [insertSorted]
    split_ifs with h
    · exact (ih.cons q).trans (List.Perm.swap p q rest)
    · exact List.Perm.refl _

theorem pairwise_insertSorted (p : FName × Bytes) :
    ∀ l : Dir, l.Pairwise dirLe → (insertSorted p l).Pairwise dirLe := by
  intro l
  induction l with
  | nil => intro _; simp [insertSorted, dirLe]
  | cons q rest ih =>
    intro h
    obtain ⟨hq, hrest⟩ := List.pairwise_cons.mp h
    simp only [insertSorted]
    split_ifs with hlt
    · refine List.pairwise_cons.mpr ⟨?_, ih hrest⟩
      intro r hr
      rcases (mem_insertSorted p r rest).mp hr with rfl | hr
      · exact nameLtb_asymm _ _ hlt
      · exact hq r hr
    · refine List.pairwise_cons.mpr ⟨?_, h⟩
      intro r hr
      rcases List.mem_cons.mp hr with rfl | hr
      · exact eq_false_of_ne_true hlt
      · exact nameLtb_trans_neg p.1 q.1 r.1 (eq_false_of_ne_true hlt) (hq r hr)

theorem sortDir_perm : ∀ l : Dir, (sortDir l).Perm l := by
  intro l
  induction l with
  | nil => exact List.Perm.refl _
  | cons p rest ih =>
    simp only [sortDir]
    exact (insertSorted_perm p (sortDir rest)).trans (ih.cons p)

theorem sortDir_pairwise : ∀ l : Dir, (sortDir l).Pairwise dirLe := by
  intro l
  induction l with
  | nil => simp [sortDir]
  | cons p rest ih =>
    simp only [sortDir]
    exact pairwise_insertSorted p (sortDir rest) ih

theorem sorted_nodup_eq : ∀ l1 l2 : Dir, l1.Perm l2 → l1.Pairwise dirLe →
    l2.Pairwise dirLe → (l1.map Prod.fst).Nodup → l1 = l2 := by
  intro l1
  induction l1 with
  | nil =>
    intro l2 hp _ _ _
    exact (hp.symm.eq_nil).symm
  | cons p t1 ih =>
    intro l2 hp hs1 hs2 hnd
    cases l2 with
    | nil => exact absurd hp.eq_nil (by simp)
    | cons q t2 =>
      have hpmem : p ∈ q :: t2 := hp.mem_iff.mp (List.mem_cons_self p t1)
      have hqmem : q ∈ p :: t1 := hp.mem_iff.mpr (List.mem_cons_self q t2)
      obtain ⟨hq1, hrest1⟩ := List.pairwise_cons.mp hs1
      obtain ⟨hq2, hrest2⟩ := List.pairwise_cons.mp hs2
      rw [List.map_cons] at hnd
      obtain ⟨hnd1, hnd2⟩ := List.nodup_cons.mp hnd
      have hpq : p = q := by
        rcases List.mem_cons.mp hqmem with hq | hq
        · exact hq.symm
        · rcases List.mem_cons.mp hpmem with hp2 | hp2
          · exact hp2
          · have hle1 : dirLe p q := hq1 q hq
            have hle2 : dirLe q p := hq2 p hp2
            have hkey : p.1 = q.1 := nameLtb_conn p.1 q.1 hle2 hle1
            exfalso
            apply hnd1
            rw [hkey]
            exact List.mem_map.mpr ⟨q, hq, rfl⟩
      subst hpq
      rw [ih t2 hp.cons_inv hrest1 hrest2 hnd2]

theorem digitsVal_natDigits : ∀ n : Nat, digitsVal (natDigits n) = n := by
  intro n
  induction n using Nat.strong_induction_on with
  | _ n ih =>
    cases n with
    | zero => rfl
    | succ m =>
      rw [natDigits_succ]
      have hdiv : (m + 1) / 10 < m + 1 :=
        Nat.div_lt_self (Nat.succ_pos m) (by norm_num)
      have hfold : digitsVal (natDigits ((m + 1) / 10) ++ [digitCode ((m + 1) % 10)]) =
          10 * digitsVal (natDigits ((m + 1) / 10)) + (digitCode ((m + 1) % 10) - 48) := by
        simp [digitsVal, List.foldl_append]
      rw [hfold, ih ((m + 1) / 10) hdiv, digitCode]
      omega

theorem natDigits_ne_nil : ∀ n : Nat, n ≠ 0 → natDigits n ≠ [] := by
  intro n h
  cases n with
  | zero => exact absurd rfl h
  | succ m =>
    rw [natDigits_succ]
    simp

theorem natDigits_head_ne : ∀ n : Nat, n ≠ 0 → ∀ c ∈ (natDigits n).head?, c ≠ 48 := by
  intro n
  induction n using Nat.strong_induction_on with
  | _ n ih =>
    cases n with
    | zero => intro h; exact absurd rfl h
    | succ m =>
      intro _ c hc
      rw [natDigits_succ] at hc
      by_cases hd : (m + 1) / 10 = 0
      · rw [hd] at hc
        have hz : natDigits 0 = [] := rfl
        rw [hz, List.nil_append] at hc
        rw [Option.mem_def] at hc
        have hcv : c = 48 + (m + 1) % 10 := by
          have h5 : digitCode ((m + 1) % 10) = c := by
            simp only [List.head?] at hc
            exact (Option.some.injEq _ _).mp hc
          rw [← h5, digitCode]
        omega
      · rcases hl : natDigits ((m + 1) / 10) with _ | ⟨d, ds⟩
        · exact absurd hl (natDigits_ne_nil _ hd)
        · rw [hl, List.cons_append] at hc
          rw [Option.mem_def] at hc
          have hcd : d = c := by
            simp only [List.head?] at hc
            exact (Option.some.injEq _ _).mp hc
          subst hcd
          exact ih ((m + 1) / 10)
            (Nat.div_lt_self (Nat.succ_pos m) (by norm_num)) hd d
            (by rw [hl]; rfl)

theorem dropWhile_replicate_append (k : Nat) (l : List Nat) :
    ((List.replicate k 48 ++ l).dropWhile fun c => c == 48) =
      l.dropWhile fun c => c == 48 := by
  induction k with
  | zero => simp
  | succ k ih =>
    rw [List.replicate_succ, List.cons_append, List.dropWhile_cons]
    simp [ih]

theorem dropWhile_natRepr (n : Nat) :
    ((natRepr n).dropWhile fun c => c == 48) =
      if n = 0 then [] else natDigits n := by
  by_cases h : n = 0
  · subst h
    rfl
  · rw [if_neg h, natRepr, if_neg h]
    rcases hl : natDigits n with _ | ⟨d, ds⟩
    · rfl
    · rw [List.dropWhile_cons]
      have hd : d ≠ 48 := natDigits_head_ne n h d (by rw [hl]; rfl)
      simp [hd]

theorem padStart6_natRepr_inj (i j : Nat)
    (h : padStart6 (natRepr i) = padStart6 (natRepr j)) : i = j := by
  have h2 := congrArg (List.dropWhile fun c => c == 48) h
  simp only [padStart6] at h2
  have h48 : digitCode 0 = 48 := rfl
  rw [h48] at h2
  rw [dropWhile_replicate_append, dropWhile_replicate_append] at h2
  rw [dropWhile_natRepr, dropWhile_natRepr] at h2
  by_cases hi : i = 0 <;> by_cases hj : j = 0
  · omega
  · rw [if_pos hi, if_neg hj] at h2
    exact absurd h2.symm (natDigits_ne_nil j hj)
  · rw [if_neg hi, if_pos hj] at h2
    exact absurd h2 (natDigits_ne_nil i hi)
  · rw [if_neg hi, if_neg hj] at h2
    have h3 := congrArg digitsVal h2
    rw [digitsVal_natDigits, digitsVal_natDigits] at h3
    exact h3

theorem chunkName_natCast_inj (a b : Nat)
    (h : chunkName (a : Int) = chunkName (b : Int)) : a = b := by
  simp only [chunkName] at h
  have h2 := List.append_cancel_left h
  have ha : intRepr (a : Int) = natRepr a := rfl
  have hb : intRepr (b : Int) = natRepr b := rfl
  rw [ha, hb] at h2
  exact padStart6_natRepr_inj a b h2

theorem insertA_append {κ β : Type} [DecidableEq κ] :
    ∀ (l : List (κ × β)) (k : κ) (v : β), k ∉ l.map Prod.fst →
      insertA l k v = l ++ [(k, v)] := by
  intro l
  induction l with
  | nil => intro k v _; rfl
  | cons p rest ih =>
    intro k v h
    obtain ⟨k0, w⟩ := p
    rw [List.map_cons, List.mem_cons] at h
    push_neg at h
    simp only [insertA]
    rw [if_neg (fun he => h.1 he.symm), ih k v h.2]
    rfl

theorem foldl_insertA_map {κ β γ : Type} [DecidableEq κ]
    (key : γ → κ) (val : γ → β) :
    ∀ (l : List γ) (acc : List (κ × β)),
      (acc.map Prod.fst ++ l.map key).Nodup →
      l.foldl (fun d i => insertA d (key i) (val i)) acc =
        acc ++ l.map (fun i => (key i, val i)) := by
  intro l
  induction l with
  | nil => intro acc _; simp
  | cons i t ih =>
    intro acc hnd
    rw [List.map_cons] at hnd
    rw [List.foldl_cons]
    have hk : key i ∉ acc.map Prod.fst := by
      rw [List.nodup_append] at hnd
      intro hmem
      exact hnd.2.2 hmem (by simp)
    rw [insertA_append acc (key i) (val i) hk]
    rw [List.map_cons]
    have hnd2 : ((acc ++ [(key i, val i)]).map Prod.fst ++ t.map key).Nodup := by
      rw [List.map_append, List.append_assoc]
      simpa using hnd
    rw [ih (acc ++ [(key i, val i)]) hnd2]
    rw [List.append_assoc]
    rfl

theorem applySeq_proj (data : Nat → Bytes) : ∀ (l : List Nat) (u : UploadSession),
    (applySeq u l data).fileName = u.fileName ∧
    (applySeq u l data).totalChunks = u.totalChunks := by
  intro l
  induction l with
  | nil => intro u; exact ⟨rfl, rfl⟩
  | cons i t ih => intro u; exact ih (applyChunk u (i : Int) (data i))

theorem applySeq_tempDir (data : Nat → Bytes) : ∀ (l : List Nat) (u : UploadSession),
    (applySeq u l data).tempDir =
      l.foldl (fun (d : Dir) (i : Nat) => insertA d (chunkName (i : Int)) (data i)) u.tempDir := by
  intro l
  induction l with
  | nil => intro u; rfl
  | cons i t ih =>
    intro u
    show (applySeq (applyChunk u (i : Int) (data i)) t data).tempDir = _
    rw [ih (applyChunk u (i : Int) (data i))]
    rfl

theorem applySeq_received (data : Nat → Bytes) : ∀ (l : List Nat) (u : UploadSession),
    (applySeq u l data).receivedChunks =
      u.receivedChunks ∪ (l.map (fun (i : Nat) => (i : Int))).toFinset := by
  intro l
  induction l with
  | nil => intro u; simp [applySeq]
  | cons i t ih =>
    intro u
    show (applySeq (applyChunk u (i : Int) (data i)) t data).receivedChunks = _
    rw [ih (applyChunk u (i : Int) (data i))]
    show insert (i : Int) u.receivedChunks ∪ _ = _
    rw [List.map_cons, List.toFinset_cons, Finset.insert_union, Finset.union_insert]

theorem toFinset_eq_of_perm (l1 l2 : List Int) (h : l1.Perm l2) :
    l1.toFinset = l2.toFinset := by
  ext x
  rw [List.mem_toFinset, List.mem_toFinset]
  exact h.mem_iff

theorem sortDir_eq_of_perm (d1 d2 : Dir) (h : d1.Perm d2)
    (hnd : (d1.map Prod.fst).Nodup) : sortDir d1 = sortDir d2 := by
  refine sorted_nodup_eq (sortDir d1) (sortDir d2) ?_ (sortDir_pairwise d1)
    (sortDir_pairwise d2) ?_
  · exact (sortDir_perm d1).trans (h.trans (sortDir_perm d2).symm)
  · exact ((sortDir_perm d1).map Prod.fst).nodup_iff.mpr hnd

/-- C6: order independence of chunk delivery.  Starting from a fresh
session (empty temp directory and received set), uploading each chunk
index of [0, totalChunks) exactly once in any order and finalizing
produces exactly the same result — byte-identical output included — as
uploading them in increasing index order; and the finalize succeeds. -/
theorem c6_order_independence (u : UploadSession) (ord : List Nat)
    (data : Nat → Bytes) (uploadId fileId : String)
    (htd : u.tempDir = []) (hrc : u.receivedChunks = ∅)
    (hperm : ord.Perm (List.range u.totalChunks)) :
    finalizeUpload [(uploadId, applySeq u ord data)] uploadId fileId =
      finalizeUpload [(uploadId, applySeq u (List.range u.totalChunks) data)]
        uploadId fileId ∧
    (finalizeUpload [(uploadId, applySeq u ord data)] uploadId fileId).isOk =
      true := by
  have hinj : Function.Injective (fun i : Nat => chunkName (i : Int)) :=
    fun a b h => chunkName_natCast_inj a b h
  have hcastinj : Function.Injective (fun i : Nat => (i : Int)) := by
    intro a b h
    simpa using h
  have hordnd : ord.Nodup := hperm.nodup_iff.mpr (List.nodup_range u.totalChunks)
  have hrangend : (List.range u.totalChunks).Nodup := List.nodup_range u.totalChunks
  have hdir : ∀ l : List Nat, l.Nodup →
      (applySeq u l data).tempDir =
        l.map (fun (i : Nat) => (chunkName (i : Int), data i)) := by
    intro l hl
    rw [applySeq_tempDir data l u, htd]
    have := foldl_insertA_map (fun i : Nat => chunkName (i : Int)) data l []
      (by simpa using hl.map hinj)
    simpa using this
  have hdperm : ((applySeq u ord data).tempDir).Perm
      ((applySeq u (List.range u.totalChunks) data).tempDir) := by
    rw [hdir ord hordnd, hdir (List.range u.totalChunks) hrangend]
    exact hperm.map _
  have hd1nd : (((applySeq u ord data).tempDir).map Prod.fst).Nodup := by
    rw [hdir ord hordnd, List.map_map]
    exact hordnd.map (fun a b h => chunkName_natCast_inj a b h)
  have hsort : sortDir (applySeq u ord data).tempDir =
      sortDir (applySeq u (List.range u.totalChunks) data).tempDir :=
    sortDir_eq_of_perm _ _ hdperm hd1nd
  have hrec : ∀ l : List Nat, l.Nodup → l.Perm (List.range u.totalChunks) →
      (applySeq u l data).receivedChunks.card = u.totalChunks := by
    intro l hl hp
    rw [applySeq_received data l u, hrc, Finset.empty_union,
      List.toFinset_card_of_nodup (hl.map hcastinj), List.length_map]
    rw [hp.length_eq, List.length_range]
  have card1 : (applySeq u ord data).receivedChunks.card = u.totalChunks :=
    hrec ord hordnd hperm
  have card2 :
      (applySeq u (List.range u.totalChunks) data).receivedChunks.card =
        u.totalChunks :=
    hrec (List.range u.totalChunks) hrangend (List.Perm.refl _)
  have heval : ∀ s : UploadSession, s.receivedChunks.card = s.totalChunks →
      finalizeUpload [(uploadId, s)] uploadId fileId =
        Except.ok ([],
          { fileId := fileId, fileName := s.fileName,
            fileBytes :=
              (sortDir s.tempDir).foldl (fun acc p => acc ++ p.2) [] }) := by
    intro s hcard
    simp [finalizeUpload, lookupA, eraseA, hcard]
  have hcard1 : (applySeq u ord data).receivedChunks.card =
      (applySeq u ord data).totalChunks := by
    rw [card1, (applySeq_proj data ord u).2]
  have hcard2 :
      (applySeq u (List.range u.totalChunks) data).receivedChunks.card =
        (applySeq u (List.range u.totalChunks) data).totalChunks := by
    rw [card2, (applySeq_proj data (List.range u.totalChunks) u).2]
  constructor
  · rw [heval _ hcard1, heval _ hcard2]
    rw [hsort]
    rw [(applySeq_proj data ord u).1,
      (applySeq_proj data (List.range u.totalChunks) u).1]
  · rw [heval _ hcard1]
    rfl

theorem c6_order_independence_witness :
    c6u.tempDir = [] ∧ c6u.receivedChunks = ∅ ∧
    ([2, 0, 1].Perm (List.range c6u.totalChunks)) ∧
    (finalizeUpload [("u", applySeq c6u [2, 0, 1] c6data)] "u" "f" =
      finalizeUpload [("u", applySeq c6u (List.range c6u.totalChunks) c6data)]
        "u" "f" ∧
     (finalizeUpload [("u", applySeq c6u [2, 0, 1] c6data)] "u" "f").isOk =
       true) ∧
    (finalizeUpload [("u", applySeq c6u [2, 0, 1] c6data)] "u" "f").toOption.map
      (fun p => p.2.fileBytes) = some [0, 0, 1, 1, 2, 2] :=
  ⟨rfl, rfl, by decide,
   c6_order_independence c6u [2, 0, 1] c6data "u" "f" rfl rfl (by decide),
   by decide⟩
